import Mathlib

/- Verification development for the progress-tracking concurrent copy
   orchestrator of src/main.py: the robocopy output parsers
   (FILE_LINE_RE / PERCENTAGE_RE and the per-line loop of copy_folder),
   the size estimator get_stats, the per-task error flow, the result
   collection loop of main and the final summary aggregation. -/

/-! Characters and small string utilities

The Python source works on `str` values; they are modelled as `String` /
`List Char`.  Python's `str.strip()` and the regex classes `\s` and `\d`
are modelled with `Char.isWhitespace` and `Char.isDigit`; the program only
ever sees ASCII robocopy output, where the Python (Unicode) and ASCII
readings of these classes agree. -/

/-- Python `str.strip()`: remove leading and trailing whitespace. -/
def pyStrip (cs : List Char) : List Char :=
  ((cs.dropWhile Char.isWhitespace).reverse.dropWhile Char.isWhitespace).reverse

/-- Python `int()` applied to a string of decimal digits. -/
def natOfDigits (ds : List Char) : Nat :=
  ds.foldl (fun a c => 10 * a + (c.toNat - 48)) 0

/-! FILE_LINE_RE

Source: `FILE_LINE_RE = re.compile(r"^\s*(?P<size>\d+)\s+(?P<path>.+)$")`,
used via `.match` on a line that `copy_folder` has already `strip()`ped,
so the line contains no newline character (the `.`-excludes-newline and
`$`-before-final-newline subtleties of the Python regex never arise).
The regex engine's greedy matching with backtracking resolves to: maximal
leading whitespace, then a maximal nonempty digit run (the `size` group),
then at least one whitespace character, then at least one further
character (`\s+` gives one character back to `.+` when nothing follows
the whitespace run). -/
def fileLineMatch (cs : List Char) : Option Nat :=
  let cs1 := cs.dropWhile Char.isWhitespace
  let ds := cs1.takeWhile Char.isDigit
  let r1 := cs1.dropWhile Char.isDigit
  let ws := r1.takeWhile Char.isWhitespace
  let tl := r1.dropWhile Char.isWhitespace
  if ds.isEmpty then none
  else if ws.isEmpty then none
  else if ¬ tl.isEmpty then some (natOfDigits ds)
  else if 2 ≤ ws.length then some (natOfDigits ds)
  else none

/-! PERCENTAGE_RE

Source: `PERCENTAGE_RE = re.compile(r"^\s*(?P<percentage>\d{1,2}(?:\.\d)?|100)\s*%$")`,
used via `.match` on the stripped line.  The captured group is passed to
`float()`; every capturable group is a decimal numeral with at most one
fractional digit, so its value is carried exactly as a `Nat` count of
tenths of a percent (`"50"` ↦ 500, `"99.9"` ↦ 999, `"100"` ↦ 1000).
The functions below reproduce the regex engine's alternative order and
backtracking: the `\d{1,2}(?:\.\d)?` branch is tried first (two digits
before one), then the literal `100` branch. -/

/-- Tail `\s*%$` of PERCENTAGE_RE: optional whitespace, `%`, end of line. -/
def pctTail (cs : List Char) : Bool :=
  match cs.dropWhile Char.isWhitespace with
  | ['%'] => true
  | _ => false

/-- Optional fractional part `(?:\.\d)?` followed by `\s*%$`, given the
value `v` of the integer digits already consumed; returns the percentage
in tenths.  When the fractional branch matches syntactically but the tail
fails, the engine backtracks to the no-fraction branch. -/
def pctFrac (v : Nat) (cs : List Char) : Option Nat :=
  match cs with
  | '.' :: c :: rest =>
      if c.isDigit && pctTail rest then some (v * 10 + (c.toNat - 48))
      else if pctTail ('.' :: c :: rest) then some (v * 10) else none
  | _ => if pctTail cs then some (v * 10) else none

/-- First alternative `\d{1,2}(?:\.\d)?\s*%$`: two digits are tried before
one (greedy `{1,2}` with backtracking). -/
def pctAlt1 (cs : List Char) : Option Nat :=
  match cs with
  | c1 :: c2 :: rest =>
      if c1.isDigit then
        if c2.isDigit then
          match pctFrac (10 * (c1.toNat - 48) + (c2.toNat - 48)) rest with
          | some v => some v
          | none => pctFrac (c1.toNat - 48) (c2 :: rest)
        else pctFrac (c1.toNat - 48) (c2 :: rest)
      else none
  | [c1] => if c1.isDigit then pctFrac (c1.toNat - 48) [] else none
  | [] => none

/-- Second alternative: the literal `100` followed by `\s*%$`. -/
def pctAlt2 (cs : List Char) : Option Nat :=
  match cs with
  | '1' :: '0' :: '0' :: rest => if pctTail rest then some 1000 else none
  | _ => none

/-- PERCENTAGE_RE applied to a line: leading `\s*`, then the two
alternatives in the regex's order.  Returns the matched percentage in
tenths of a percent. -/
def pctMatch (cs : List Char) : Option Nat :=
  let cs1 := cs.dropWhile Char.isWhitespace
  match pctAlt1 cs1 with
  | some v => some v
  | none => pctAlt2 cs1

/-! The per-line progress loop of copy_folder (src/main.py lines 222-241) -/

/-- Per-task parser state: the local variables `current_file_size` and
`current_file_done` of `copy_folder`. -/
structure ProgressState where
  current_file_size : Nat
  current_file_done : Nat
deriving Repr, DecidableEq

/-- Initial parser state (`current_file_size = 0`, `current_file_done = 0`). -/
def initState : ProgressState := ⟨0, 0⟩

/-- Value of `int(current_file_size * (percentage / 100.0))` with the
percentage carried in tenths: the exact floor of size·p/1000.  The source
computes this in Python binary64 floating point; on the percentage grid
(tenths in 0..1000) the two agree except where binary64 rounding drops
the product just below an integer, and they agree on every input used in
the claims (where the float computation is exact). -/
def newDone (size p10 : Nat) : Nat := size * p10 / 1000

/-- One iteration of the `for line in iter(process.stdout.readline, "")`
loop of `copy_folder`: strip the line, skip blank lines, try FILE_LINE_RE
(reset the per-file baseline), then PERCENTAGE_RE (advance the progress
bar by a positive delta).  Returns the new state and the emitted delta,
if any. -/
def feedLine (st : ProgressState) (line : String) : ProgressState × Option Nat :=
  let l := pyStrip line.data
  if l.isEmpty then (st, none)
  else
    match fileLineMatch l with
    | some sz => ({ current_file_size := sz, current_file_done := 0 }, none)
    | none =>
      match pctMatch l with
      | some p10 =>
        let nd := newDone st.current_file_size p10
        if st.current_file_done < nd then
          ({ st with current_file_done := nd }, some (nd - st.current_file_done))
        else (st, none)
      | none => (st, none)

/-- The whole read loop over a list of output lines, collecting the
emitted deltas in order. -/
def feedLines (st : ProgressState) : List String → ProgressState × List Nat
  | [] => (st, [])
  | l :: ls =>
    let s1 := feedLine st l
    let s2 := feedLines s1.1 ls
    (s2.1, s1.2.toList ++ s2.2)

/-! get_stats (src/main.py lines 66-124)

`get_stats` runs robocopy in listing mode and parses its stdout with
`re.findall(r"(?:Bytes|Octets)\s*:\s*([\d,.]+)", output, re.IGNORECASE)`
and the same pattern with `Files|Fichiers`; it takes the last captured
group of each, strips every non-digit character (`re.sub(r"\D", "", …)`)
and converts to `int`.  A missing match, or a group that is left empty by
the stripping, raises `ValueError`; a raised `ValueError` is modelled as
`none`. -/

/-- Character class `[\d,.]` of the captured group. -/
def isNumSep (c : Char) : Bool := c.isDigit || c = ',' || c = '.'

/-- Case-insensitive literal match (re.IGNORECASE): consume the pattern
characters (given lowercase) from the input, returning the rest. -/
def ciTake : List Char → List Char → Option (List Char)
  | [], cs => some cs
  | _ :: _, [] => none
  | p :: ps, c :: cs => if c.toLower = p then ciTake ps cs else none

/-- Continuation `\s*:\s*([\d,.]+)` of the summary patterns, after the
label: optional whitespace, a colon, optional whitespace, then a maximal
nonempty run of digits and separators (the captured group).  Returns the
group and the unconsumed rest. -/
def afterLabel (cs : List Char) : Option (List Char × List Char) :=
  match cs.dropWhile Char.isWhitespace with
  | ':' :: cs2 =>
    let cs3 := cs2.dropWhile Char.isWhitespace
    let g := cs3.takeWhile isNumSep
    if g.isEmpty then none else some (g, cs3.dropWhile isNumSep)
  | _ => none

/-- Try one alternative of the label alternation at this position. -/
def tryAlt (lab cs : List Char) : Option (List Char × List Char) :=
  match ciTake lab cs with
  | some rest => afterLabel rest
  | none => none

/-- Try the whole pattern `(?:L1|L2)\s*:\s*([\d,.]+)` at this position,
with the alternatives in the regex's order. -/
def tryMatch2 (l1 l2 cs : List Char) : Option (List Char × List Char) :=
  match tryAlt l1 cs with
  | some r => some r
  | none => tryAlt l2 cs

/-- Fuelled scanner for `re.findall`: try the pattern at each position,
and on a match continue after the consumed span (non-overlapping
matches).  The fuel only needs to dominate the input length. -/
def scanSkipAux (l1 l2 : List Char) : Nat → List Char → List (List Char)
  | 0, _ => []
  | _ + 1, [] => []
  | n + 1, c :: cs =>
    match tryMatch2 l1 l2 (c :: cs) with
    | some (g, rest) => g :: scanSkipAux l1 l2 n rest
    | none => scanSkipAux l1 l2 n cs

/-- Model of `re.findall` of the summary pattern over the whole output. -/
def scanSkip (l1 l2 cs : List Char) : List (List Char) :=
  scanSkipAux l1 l2 cs.length cs

/-- Declarative matcher used only in specification statements: the
captured groups of every position at which the pattern matches, in
positional order, with no skipping.  For these patterns no match can
begin inside another match's span, so this coincides with `scanSkip`
(proved below). -/
def allMatches (l1 l2 : List Char) : List Char → List (List Char)
  | [] => []
  | c :: cs =>
    match tryMatch2 l1 l2 (c :: cs) with
    | some (g, _) => g :: allMatches l1 l2 cs
    | none => allMatches l1 l2 cs

/-- Labels of the byte-total pattern `(?:Bytes|Octets)`, lowercase. -/
def bytesA : List Char := ['b', 'y', 't', 'e', 's']

/-- Second byte-total label (French locale). -/
def bytesB : List Char := ['o', 'c', 't', 'e', 't', 's']

/-- Labels of the file-count pattern `(?:Files|Fichiers)`, lowercase. -/
def filesA : List Char := ['f', 'i', 'l', 'e', 's']

/-- Second file-count label (French locale). -/
def filesB : List Char := ['f', 'i', 'c', 'h', 'i', 'e', 'r', 's']

/-- Result of a successful estimation: the dict
`{"size_bytes": …, "file_count": …}` returned by `get_stats`. -/
structure DirectoryStats where
  size_bytes : Nat
  file_count : Nat
deriving Repr, DecidableEq

/-- Python `int(re.sub(r"\D", "", g))`: strip the non-digits and convert; Python
`int("")` raises, modelled as `none`. -/
def cleanInt (g : List Char) : Option Nat :=
  let ds := g.filter Char.isDigit
  if ds.isEmpty then none else some (natOfDigits ds)

/-- Model of `get_stats` applied to the captured robocopy listing output.  `none`
models the raised `ValueError` (no summary match, or a group with no
digits). -/
def get_stats (output : List Char) : Option DirectoryStats :=
  let sizeMatches := scanSkip bytesA bytesB output
  let fileMatches := scanSkip filesA filesB output
  match sizeMatches.getLast?, fileMatches.getLast? with
  | some sg, some fg =>
    match cleanInt sg, cleanInt fg with
    | some s, some f => some ⟨s, f⟩
    | _, _ => none
  | _, _ => none

example : get_stats ("   Files : 3\n   Bytes : 1,200\n").data = some ⟨1200, 3⟩ := by decide
example : get_stats "".data = none := by decide
example :
    get_stats ("x\n Files : 1\n Bytes : 5\nY\n Fichiers : 34\n Octets : 12,345,678\n").data =
      some ⟨12345678, 34⟩ := by decide

/-! copy_folder (src/main.py lines 171-253)

`copy_folder` is modelled as a function of the data its collaborators
hand it: the stdout of the estimation run (fed to `get_stats`), the
outcome of `subprocess.Popen` (`none` models a raised `OSError` such as
FileNotFoundError or PermissionError — the source does not wrap the
`Popen` call in any try/except), the list of lines of the live output
stream, and the elapsed time read from the progress task.  The progress
display is threaded explicitly: the task's slot is a record of the fields
`copy_folder` writes (description, completed, total).  Filesystem side
effects (mkdir, the log file) are out of scope.  The first component of
the result is `Except`: `.error` models an exception escaping
`copy_folder`, `.ok` the returned dict
`{"bytes_copied": …, "time_seconds": …}`. -/

/-- Progress-display slot owned by one task: the fields of the Rich task
that `copy_folder` mutates. -/
structure Slot where
  description : String
  completed : Nat
  total : Option Nat
deriving Repr, DecidableEq

/-- Per-task result dict returned by `copy_folder`
(`{"bytes_copied": …, "time_seconds": …}`); the elapsed time is carried
exactly as a rational. -/
structure TaskResult where
  bytes_copied : Nat
  time_seconds : ℚ
deriving Repr, DecidableEq

/-- Exception raised by `subprocess.Popen` when the robocopy executable
cannot be started (missing, permission denied). -/
inductive PopenError
  | launchFailure
deriving Repr, DecidableEq

deriving instance DecidableEq for Except

/-- The body of `copy_folder`.  `estOutput` is the listing output that
`get_stats` parses; `launch` is `none` when `Popen` raises; `lines` (when
launch succeeds) is the live output stream; `elapsed` is the final value
of `progress.tasks[task_id].elapsed`. -/
def copy_folder (name : String) (estOutput : List Char)
    (launch : Option (List String)) (elapsed : ℚ) (slot : Slot) :
    Except PopenError TaskResult × Slot :=
  match get_stats estOutput with
  | none =>
    (.ok ⟨0, 0⟩,
      { slot with
        description := "[bold red]Error getting stats for " ++ name ++ "[/bold red]"
        completed := 1 })
  | some stats =>
    let slot1 : Slot := { slot with total := some stats.size_bytes, completed := 0 }
    match launch with
    | none => (.error .launchFailure, slot1)
    | some lines =>
      let run := feedLines initState lines
      (.ok ⟨stats.size_bytes, elapsed⟩,
        { slot1 with
          completed := slot1.completed + run.2.sum
          description := "[green]" ++ name ++ "[/green]" })

/-! Result collection and summary (src/main.py lines 303-336) -/

/-- The collection loop `for future in tasks: results.append(future.result())`
of `main`: futures are read in submission order; the first stored
exception re-raised by `future.result()` propagates and aborts the loop
(and with it the summary). -/
def collectResults : List (Except PopenError TaskResult) → Except PopenError (List TaskResult)
  | [] => .ok []
  | .error e :: _ => .error e
  | .ok r :: rest =>
    match collectResults rest with
    | .error e => .error e
    | .ok rs => .ok (r :: rs)

/-- Future lookup in the completion-order model of the thread pool: task
bodies complete in the arbitrary order recorded by `completed`; a future
holds its own task's result once that task has completed, regardless of
when the others finish. -/
def futureResult (completed : List Nat) (results : Nat → TaskResult) (i : Nat) :
    Option TaskResult :=
  if i ∈ completed then some (results i) else none

/-- The collection loop of `main` over the futures in submission order,
in the completion-order model: each `future.result()` call returns only
if that task has completed. -/
def collectInOrder (completed : List Nat) (results : Nat → TaskResult) :
    List Nat → Option (List TaskResult)
  | [] => some []
  | i :: is =>
    match futureResult completed results i with
    | none => none
    | some r =>
      match collectInOrder completed results is with
      | none => none
      | some rs => some (r :: rs)

/-- Python `max(iterable, default=0)` over the elapsed times
(src/main.py lines 331-333): the default is used only when the iterable
is empty. -/
def pyMax (l : List ℚ) (d : ℚ) : ℚ :=
  match l with
  | [] => d
  | x :: xs => xs.foldl max x

/-- Line `total_bytes = sum(r["bytes_copied"] for r in results)` (line 330). -/
def total_bytes (rs : List TaskResult) : Nat :=
  (rs.map TaskResult.bytes_copied).sum

/-- Line `total_time = max((r["time_seconds"] for r in results), default=0)`
(lines 331-333). -/
def total_time (rs : List TaskResult) : ℚ :=
  pyMax (rs.map TaskResult.time_seconds) 0

/-- Line `average_speed = total_bytes / 1_048_576 / total_time if total_time > 0 else 0`
(lines 334-336), in exact rational arithmetic. -/
def average_speed (rs : List TaskResult) : ℚ :=
  if 0 < total_time rs then (total_bytes rs : ℚ) / 1048576 / total_time rs else 0

/-- Listing output used by the concrete task examples: a successful
robocopy summary. -/
def sampleListing : List Char := ("   Files : 3\n   Bytes : 1,200\n").data

/-- Display slot used by the concrete task examples. -/
def sampleSlot : Slot := ⟨"t", 0, none⟩

/-! Character facts -/

theorem digit_toNat_range (c : Char) (h : c.isDigit = true) :
    48 ≤ c.toNat ∧ c.toNat ≤ 57 := by
  simp [Char.isDigit] at h
  obtain ⟨h1, h2⟩ := h
  have h1' : (48 : UInt32).toNat ≤ c.val.toNat := h1
  have h2' : c.val.toNat ≤ (57 : UInt32).toNat := h2
  have e1 : (48 : UInt32).toNat = 48 := rfl
  have e2 : (57 : UInt32).toNat = 57 := rfl
  have e3 : c.toNat = c.val.toNat := rfl
  omega

theorem digit_not_ws (c : Char) (h : c.isDigit = true) : c.isWhitespace = false := by
  have hr := digit_toNat_range c h
  simp [Char.isWhitespace]
  refine ⟨⟨⟨?_, ?_⟩, ?_⟩, ?_⟩ <;> (intro he; subst he; exact absurd hr (by decide))

theorem toLower_of_lt65 (c : Char) (h : c.toNat < 65) : c.toLower = c := by
  unfold Char.toLower
  rw [if_neg]
  omega

theorem ne_of_toNat_ne (a b : Char) (h : a.toNat ≠ b.toNat) : a ≠ b :=
  fun he => h (by rw [he])

theorem ws_toNat_lt65 (c : Char) (h : c.isWhitespace = true) : c.toNat < 65 := by
  simp [Char.isWhitespace] at h
  rcases h with ((rfl | rfl) | rfl) | rfl <;> decide

theorem digit_val_le9 (c : Char) (h : c.isDigit = true) : c.toNat - 48 ≤ 9 := by
  have := digit_toNat_range c h
  omega

/-! Basic parser lemmas -/

theorem pctFrac_le (v : Nat) (cs : List Char) (q : Nat) (h : pctFrac v cs = some q) :
    q ≤ 10 * v + 9 := by
  unfold pctFrac at h
  split at h
  · rename_i c rest
    split at h
    · rename_i hc
      simp only [Bool.and_eq_true] at hc
      have := digit_val_le9 c hc.1
      simp only [Option.some.injEq] at h
      omega
    · split at h
      · simp only [Option.some.injEq] at h
        omega
      · exact absurd h (by simp)
  · split at h
    · simp only [Option.some.injEq] at h
      omega
    · exact absurd h (by simp)

theorem pctAlt1_le (cs : List Char) (v : Nat) (h : pctAlt1 cs = some v) : v ≤ 999 := by
  unfold pctAlt1 at h
  split at h
  · rename_i c1 c2 rest
    split at h
    · rename_i h1
      have b1 := digit_val_le9 c1 h1
      split at h
      · rename_i h2
        have b2 := digit_val_le9 c2 h2
        split at h
        · rename_i q hq
          simp only [Option.some.injEq] at h
          have := pctFrac_le _ _ _ hq
          omega
        · have := pctFrac_le _ _ _ h
          omega
      · have := pctFrac_le _ _ _ h
        omega
    · exact absurd h (by simp)
  · rename_i c1
    split at h
    · rename_i h1
      have := digit_val_le9 c1 h1
      have := pctFrac_le _ _ _ h
      omega
    · exact absurd h (by simp)
  · exact absurd h (by simp)

theorem pctAlt2_le (cs : List Char) (v : Nat) (h : pctAlt2 cs = some v) : v = 1000 := by
  unfold pctAlt2 at h
  split at h
  · split at h
    · simp only [Option.some.injEq] at h
      omega
    · exact absurd h (by simp)
  · exact absurd h (by simp)

theorem pctMatch_le (cs : List Char) (p : Nat) (h : pctMatch cs = some p) : p ≤ 1000 := by
  unfold pctMatch at h
  dsimp only at h
  split at h
  · rename_i v hv
    simp only [Option.some.injEq] at h
    subst h
    have := pctAlt1_le _ _ hv
    omega
  · have := pctAlt2_le _ _ h
    omega

theorem newDone_le (size p : Nat) (h : p ≤ 1000) : newDone size p ≤ size := by
  unfold newDone
  calc size * p / 1000 ≤ size * 1000 / 1000 :=
        Nat.div_le_div_right (Nat.mul_le_mul_left _ h)
    _ = size := by omega

theorem fileLineMatch_nil : fileLineMatch [] = none := rfl

theorem pctMatch_nil : pctMatch [] = none := rfl

theorem feedLine_header (st : ProgressState) (l : String) (n : Nat)
    (h : fileLineMatch (pyStrip l.data) = some n) :
    feedLine st l = (⟨n, 0⟩, none) := by
  unfold feedLine
  dsimp only
  cases hl : pyStrip l.data with
  | nil => rw [hl] at h; rw [fileLineMatch_nil] at h; exact absurd h (by simp)
  | cons c cs =>
    rw [hl] at h
    simp [h]

theorem feedLine_pct_noemit (st : ProgressState) (l : String) (p : Nat)
    (hf : fileLineMatch (pyStrip l.data) = none)
    (hp : pctMatch (pyStrip l.data) = some p)
    (hle : newDone st.current_file_size p ≤ st.current_file_done) :
    feedLine st l = (st, none) := by
  unfold feedLine
  dsimp only
  cases hl : pyStrip l.data with
  | nil => rw [hl] at hp; rw [pctMatch_nil] at hp; exact absurd hp (by simp)
  | cons c cs =>
    rw [hl] at hf hp
    simp only [List.isEmpty_cons, Bool.false_eq_true, if_false, hf, hp]
    rw [if_neg]
    omega

theorem feedLine_delta_pos (st : ProgressState) (l : String) (d : Nat)
    (h : (feedLine st l).2 = some d) : 0 < d := by
  unfold feedLine at h
  dsimp only at h
  split at h
  · exact absurd h (by simp)
  · split at h
    · exact absurd h (by simp)
    · split at h
      · split at h
        · rename_i hlt
          simp only [Option.some.injEq] at h
          omega
        · exact absurd h (by simp)
      · exact absurd h (by simp)

theorem feedLine_inv (st : ProgressState) (l : String)
    (h : st.current_file_done ≤ st.current_file_size) :
    (feedLine st l).1.current_file_done ≤ (feedLine st l).1.current_file_size := by
  unfold feedLine
  dsimp only
  split
  · exact h
  · split
    · exact Nat.zero_le _
    · split
      · rename_i p hp
        split
        · exact newDone_le _ _ (pctMatch_le _ _ hp)
        · exact h
      · exact h

theorem feedLines_inv (st : ProgressState) (ls : List String)
    (h : st.current_file_done ≤ st.current_file_size) :
    (feedLines st ls).1.current_file_done ≤ (feedLines st ls).1.current_file_size := by
  induction ls generalizing st with
  | nil => exact h
  | cons l ls ih =>
    simp only [feedLines]
    exact ih _ (feedLine_inv st l h)

theorem feedLines_append (st : ProgressState) (ls ls' : List String) :
    feedLines st (ls ++ ls') =
      ((feedLines (feedLines st ls).1 ls').1,
        (feedLines st ls).2 ++ (feedLines (feedLines st ls).1 ls').2) := by
  induction ls generalizing st with
  | nil => simp [feedLines]
  | cons l ls ih =>
    simp only [List.cons_append, feedLines, List.append_eq]
    rw [ih]
    simp [List.append_assoc]

theorem feedLines_delta_pos (st : ProgressState) (ls : List String) (d : Nat)
    (h : d ∈ (feedLines st ls).2) : 0 < d := by
  induction ls generalizing st with
  | nil => simp [feedLines] at h
  | cons l ls ih =>
    simp only [feedLines, List.mem_append] at h
    rcases h with h | h
    · cases ho : (feedLine st l).2 with
      | none => rw [ho] at h; simp at h
      | some d0 =>
        rw [ho] at h
        simp only [Option.toList_some, List.mem_singleton] at h
        rw [h]
        exact feedLine_delta_pos st l d0 ho
    · exact ih _ h

example : feedLines initState ["  1000 file1.txt", "0%", "50%", "100%"] =
    (⟨1000, 1000⟩, [500, 500]) := by decide

example : feedLines initState ["500 a", "100%", "200 b", "50%"] =
    (⟨200, 100⟩, [500, 100]) := by decide

example : pctMatch "100.0%".data = none := by decide
example : pctMatch " 99.9%".data = some 999 := by decide
example : fileLineMatch "100.0%".data = none := by decide
example : fileLineMatch "12 %".data = some 12 := by decide

theorem feedLine_zero_size (l : String)
    (h : fileLineMatch (pyStrip l.data) = none) :
    feedLine initState l = (initState, none) := by
  unfold feedLine
  dsimp only
  cases hl : pyStrip l.data with
  | nil => simp
  | cons c cs =>
    rw [hl] at h
    simp only [List.isEmpty_cons, Bool.false_eq_true, if_false, h]
    cases hp : pctMatch (c :: cs) with
    | none => rfl
    | some p =>
      have hz : newDone initState.current_file_size p = 0 := by
        simp [newDone, initState]
      dsimp only
      rw [hz]
      simp [initState]

/-- C1: for the line sequence `["  1000 file1.txt", "0%", "50%", "100%"]`
the per-line loop of `copy_folder` emits no delta for the file-header
line, and emits exactly the deltas 500 then 500 (total 1000), each delta
being `newDone` (the floor of size times percentage over 100) minus the
previous `current_file_done`. -/
theorem c1_stream_parser_deltas :
    feedLines initState ["  1000 file1.txt", "0%", "50%", "100%"] =
      (⟨1000, 1000⟩, [500, 500])
    ∧ feedLine initState "  1000 file1.txt" = (⟨1000, 0⟩, none)
    ∧ feedLine ⟨1000, 0⟩ "0%" = (⟨1000, 0⟩, none)
    ∧ feedLine ⟨1000, 0⟩ "50%" = (⟨1000, 500⟩, some (newDone 1000 500 - 0))
    ∧ feedLine ⟨1000, 500⟩ "100%" = (⟨1000, 1000⟩, some (newDone 1000 1000 - 500)) := by
  decide

/-- C2: a file-header line resets the parser baseline — it sets
`current_file_size` to the parsed size, sets `current_file_done` to 0 and
emits no delta — so the sequence `["500 a", "100%", "200 b", "50%"]`
emits delta 500 then delta 100, and no emitted delta is ever negative
(every emitted delta is strictly positive). -/
theorem c2_header_resets_baseline :
    (∀ (st : ProgressState) (l : String) (n : Nat),
        fileLineMatch (pyStrip l.data) = some n → feedLine st l = (⟨n, 0⟩, none))
    ∧ feedLines initState ["500 a", "100%", "200 b", "50%"] = (⟨200, 100⟩, [500, 100])
    ∧ (∀ (st : ProgressState) (ls : List String) (d : Nat),
        d ∈ (feedLines st ls).2 → 0 < d) :=
  ⟨feedLine_header, by decide, feedLines_delta_pos⟩

theorem c2_header_resets_baseline_witness :
    feedLine ⟨1000, 700⟩ "  200 b" = (⟨200, 0⟩, none) ∧ (0:Nat) < 500 :=
  ⟨c2_header_resets_baseline.1 ⟨1000, 700⟩ "  200 b" 200 (by decide),
   c2_header_resets_baseline.2.2 initState ["500 a", "100%"] 500 (by decide)⟩

/-- C3: after any sequence of lines from the initial state the invariant
`current_file_done ≤ current_file_size` holds; the cumulative total of
emitted deltas is monotonically non-decreasing as further lines are fed;
and a percentage line whose computed `newDone` is at most the current
`current_file_done` emits no delta and leaves the state unchanged. -/
theorem c3_parser_invariants :
    (∀ ls : List String,
        (feedLines initState ls).1.current_file_done ≤
          (feedLines initState ls).1.current_file_size)
    ∧ (∀ ls ls' : List String,
        ((feedLines initState ls).2).sum ≤ ((feedLines initState (ls ++ ls')).2).sum)
    ∧ (∀ (st : ProgressState) (l : String) (p : Nat),
        fileLineMatch (pyStrip l.data) = none →
        pctMatch (pyStrip l.data) = some p →
        newDone st.current_file_size p ≤ st.current_file_done →
        feedLine st l = (st, none)) := by
  refine ⟨?_, ?_, feedLine_pct_noemit⟩
  · intro ls
    exact feedLines_inv initState ls (Nat.le_refl 0)
  · intro ls ls'
    rw [feedLines_append]
    simp only [List.sum_append]
    exact Nat.le_add_right _ _

theorem c3_parser_invariants_witness :
    (feedLines initState ["  1000 a", "50%"]).1.current_file_done ≤
      (feedLines initState ["  1000 a", "50%"]).1.current_file_size
    ∧ feedLine ⟨1000, 500⟩ "50%" = (⟨1000, 500⟩, none) :=
  ⟨c3_parser_invariants.1 ["  1000 a", "50%"],
   c3_parser_invariants.2.2 ⟨1000, 500⟩ "50%" 500 (by decide) (by decide) (by decide)⟩

/-- C4 counterexample: `"100.0"` is a one-decimal representation of the
value 100, which lies in [0, 100], yet PERCENTAGE_RE does not match the
line `"100.0%"` (the `\d{1,2}(?:\.\d)?` alternative allows at most two
integer digits and the `100` alternative allows no fraction), and the
parser emits nothing for that line, leaving its state unchanged. -/
theorem c4_counterexample :
    pctMatch "100.0%".data = none
    ∧ feedLine ⟨1000, 500⟩ "100.0%" = (⟨1000, 500⟩, none) := by
  decide

/-- C4 (amended): PERCENTAGE_RE matches exactly the lines whose number is
written with one or two integer digits, optionally followed by a decimal
point and one digit (values 0 to 99.9), or as the exact literal `100`;
one-decimal forms of 100 such as `"100.0%"` are not matched. -/
theorem c4_percentage_recognition (a b c : Char)
    (ha : a.isDigit = true) (hb : b.isDigit = true) (hc : c.isDigit = true) :
    pctMatch [a, '%'] = some ((a.toNat - 48) * 10)
    ∧ pctMatch [a, b, '%'] = some ((10 * (a.toNat - 48) + (b.toNat - 48)) * 10)
    ∧ pctMatch [a, '.', b, '%'] = some ((a.toNat - 48) * 10 + (b.toNat - 48))
    ∧ pctMatch [a, b, '.', c, '%'] =
        some ((10 * (a.toNat - 48) + (b.toNat - 48)) * 10 + (c.toNat - 48))
    ∧ pctMatch ['1', '0', '0', '%'] = some 1000
    ∧ pctMatch ['1', '0', '0', '.', '0', '%'] = none := by
  have hwa := digit_not_ws a ha
  have hwb := digit_not_ws b hb
  refine ⟨?_, ?_, ?_, ?_, by decide, by decide⟩
  · simp [pctMatch, List.dropWhile_cons, hwa, pctAlt1, ha, pctFrac, pctTail]
  · simp [pctMatch, List.dropWhile_cons, hwa, pctAlt1, ha, hb, pctFrac, pctTail]
  · simp [pctMatch, List.dropWhile_cons, hwa, pctAlt1, ha, hb, pctFrac, pctTail]
  · simp [pctMatch, List.dropWhile_cons, hwa, pctAlt1, ha, hb, hc, pctFrac, pctTail]

theorem c4_percentage_recognition_witness :
    pctMatch ['2', '%'] = some 20
    ∧ pctMatch ['9', '9', '.', '9', '%'] = some 999 := by
  have h := c4_percentage_recognition '2' '9' '9' (by decide) (by decide) (by decide)
  have h2 := c4_percentage_recognition '9' '9' '9' (by decide) (by decide) (by decide)
  exact ⟨h.1, h2.2.2.2.1⟩

/-- C10: a sequence of lines containing no file-header line produces no
delta at all from the initial state: `current_file_size` is still 0, so
every percentage line computes `newDone = 0`, yielding delta 0, which is
not emitted, and the state stays at the initial state. -/
theorem c10_no_header_no_delta :
    ∀ ls : List String, (∀ l ∈ ls, fileLineMatch (pyStrip l.data) = none) →
      feedLines initState ls = (initState, []) := by
  intro ls h
  induction ls with
  | nil => rfl
  | cons l ls ih =>
    have h1 : feedLine initState l = (initState, none) :=
      feedLine_zero_size l (h l (List.mem_cons_self l ls))
    have h2 := ih (fun x hx => h x (List.mem_cons_of_mem l hx))
    simp only [feedLines, h1, h2]
    rfl

theorem c10_no_header_no_delta_witness :
    feedLines initState ["0%", "50%", "100%", "junk", ""] = (initState, []) :=
  c10_no_header_no_delta ["0%", "50%", "100%", "junk", ""] (by decide)

theorem collectResults_error (pre : List (Except PopenError TaskResult))
    (hpre : ∀ x ∈ pre, ∃ r, x = Except.ok r) (e : PopenError)
    (post : List (Except PopenError TaskResult)) :
    collectResults (pre ++ Except.error e :: post) = Except.error e := by
  induction pre with
  | nil => rfl
  | cons x pre ih =>
    obtain ⟨r, rfl⟩ := hpre x (List.mem_cons_self x pre)
    have h := ih (fun y hy => hpre y (List.mem_cons_of_mem _ hy))
    simp only [List.cons_append, collectResults, List.append_eq, h]

theorem collectResults_ok (rs : List TaskResult) :
    collectResults (rs.map Except.ok) = Except.ok rs := by
  induction rs with
  | nil => rfl
  | cons r rs ih => simp only [List.map_cons, collectResults, ih]

/-- C6 counterexample: two tasks, the first of which cannot start its
copy process (its estimation succeeded) while the second runs normally.
The launch failure is not caught anywhere: the first task's outcome is
the propagated exception — not a failed zero result — and the collection
loop of `main` aborts with that exception instead of returning results
for all sibling tasks. -/
theorem c6_counterexample :
    (copy_folder "a" sampleListing none 0 sampleSlot).1 ≠ Except.ok ⟨0, 0⟩
    ∧ collectResults
        [(copy_folder "a" sampleListing none 0 sampleSlot).1,
          (copy_folder "b" sampleListing (some ["50%"]) 3 sampleSlot).1] =
        Except.error PopenError.launchFailure := by
  decide

/-- C6 (amended): a process-launch error is not task-local: `copy_folder`
guards only the estimation step, so when the replication engine cannot be
started the exception escapes the task (after a successful estimation),
and the collection loop of `main` re-raises it, aborting the batch before
the summary; sibling results after the failing future are dropped. -/
theorem c6_launch_error_aborts_batch (name : String) (estOut : List Char)
    (elapsed : ℚ) (slot : Slot) (stats : DirectoryStats)
    (hest : get_stats estOut = some stats)
    (pre post : List (Except PopenError TaskResult))
    (hpre : ∀ x ∈ pre, ∃ r, x = Except.ok r) :
    (copy_folder name estOut none elapsed slot).1 = Except.error PopenError.launchFailure
    ∧ collectResults (pre ++ (copy_folder name estOut none elapsed slot).1 :: post) =
        Except.error PopenError.launchFailure := by
  have h1 : (copy_folder name estOut none elapsed slot).1 =
      Except.error PopenError.launchFailure := by
    unfold copy_folder
    rw [hest]
  exact ⟨h1, by rw [h1]; exact collectResults_error pre hpre _ post⟩

theorem c6_launch_error_aborts_batch_witness :
    (copy_folder "a" sampleListing none 0 sampleSlot).1 =
      Except.error PopenError.launchFailure
    ∧ collectResults
        [Except.ok ⟨7, 2⟩, (copy_folder "a" sampleListing none 0 sampleSlot).1] =
      Except.error PopenError.launchFailure := by
  have h := c6_launch_error_aborts_batch "a" sampleListing 0 sampleSlot ⟨1200, 3⟩
    (by decide) [Except.ok ⟨7, 2⟩] [] (by simp)
  exact ⟨h.1, h.2⟩

/-- C7: a task whose size estimation fails returns the zero result
(`bytes_copied = 0`, `time_seconds = 0`), its failure is reported on its
display slot (the red error description, `completed = 1` — the code's
"failed" marking, since the returned dict carries no failed field), and
the failure neither blocks nor fails sibling tasks: collecting it
together with any sibling results succeeds and keeps every sibling result
unchanged. -/
theorem c7_estimation_failure_is_task_local (name : String) (estOut : List Char)
    (launch : Option (List String)) (elapsed : ℚ) (slot : Slot)
    (siblings : List TaskResult) (hest : get_stats estOut = none) :
    copy_folder name estOut launch elapsed slot =
      (Except.ok ⟨0, 0⟩,
        { slot with
          description := "[bold red]Error getting stats for " ++ name ++ "[/bold red]"
          completed := 1 })
    ∧ collectResults ((copy_folder name estOut launch elapsed slot).1 ::
        siblings.map Except.ok) = Except.ok (⟨0, 0⟩ :: siblings) := by
  have h1 : copy_folder name estOut launch elapsed slot =
      (Except.ok ⟨0, 0⟩,
        { slot with
          description := "[bold red]Error getting stats for " ++ name ++ "[/bold red]"
          completed := 1 }) := by
    unfold copy_folder
    rw [hest]
  refine ⟨h1, ?_⟩
  rw [h1]
  simp only [collectResults, collectResults_ok]

theorem c7_estimation_failure_is_task_local_witness :
    copy_folder "a" [] none 0 sampleSlot =
      (Except.ok ⟨0, 0⟩,
        { sampleSlot with
          description := "[bold red]Error getting stats for " ++ "a" ++ "[/bold red]"
          completed := 1 })
    ∧ collectResults [(copy_folder "a" [] none 0 sampleSlot).1, Except.ok ⟨5, 2⟩] =
      Except.ok [⟨0, 0⟩, ⟨5, 2⟩] := by
  have h := c7_estimation_failure_is_task_local "a" [] none 0 sampleSlot [⟨5, 2⟩]
    (by decide)
  exact ⟨h.1, h.2⟩

theorem collectInOrder_complete (completed : List Nat) (results : Nat → TaskResult)
    (idx : List Nat) (h : ∀ i ∈ idx, i ∈ completed) :
    collectInOrder completed results idx = some (idx.map results) := by
  induction idx with
  | nil => rfl
  | cons i idx ih =>
    have hi : i ∈ completed := h i (List.mem_cons_self i idx)
    have h2 := ih (fun j hj => h j (List.mem_cons_of_mem i hj))
    simp only [collectInOrder, futureResult, if_pos hi, h2, List.map_cons]

/-- C8: in the completion-order model of the worker pool, whenever every
submitted task eventually completes, the collection loop of `main`
returns exactly one result per task — the list of the tasks' own results
in submission order — independently of the completion order `completed`. -/
theorem c8_results_in_submission_order (n : Nat) (completed : List Nat)
    (results : Nat → TaskResult) (h : ∀ i, i < n → i ∈ completed) :
    collectInOrder completed results (List.range n) =
      some ((List.range n).map results)
    ∧ ((List.range n).map results).length = n := by
  refine ⟨collectInOrder_complete completed results (List.range n) ?_, by simp⟩
  intro i hi
  exact h i (List.mem_range.mp hi)

theorem c8_results_in_submission_order_witness :
    collectInOrder [2, 0, 1] (fun i => ⟨i, (i : ℚ)⟩) (List.range 3) =
      some ((List.range 3).map fun i => ⟨i, (i : ℚ)⟩) :=
  (c8_results_in_submission_order 3 [2, 0, 1] (fun i => ⟨i, (i : ℚ)⟩)
    (by decide)).1

theorem le_foldl_max (a : ℚ) (ys : List ℚ) : a ≤ ys.foldl max a := by
  induction ys generalizing a with
  | nil => exact le_refl a
  | cons y ys ih =>
    simp only [List.foldl_cons]
    exact le_trans (le_max_left a y) (ih (max a y))

theorem mem_le_foldl_max (a x : ℚ) (ys : List ℚ) (h : x ∈ ys) :
    x ≤ ys.foldl max a := by
  induction ys generalizing a with
  | nil => simp at h
  | cons y ys ih =>
    simp only [List.foldl_cons]
    rcases List.mem_cons.mp h with rfl | h2
    · exact le_trans (le_max_right a x) (le_foldl_max _ ys)
    · exact ih (max a y) h2

theorem foldl_max_mem (a : ℚ) (ys : List ℚ) : ys.foldl max a ∈ a :: ys := by
  induction ys generalizing a with
  | nil => simp [List.foldl]
  | cons y ys ih =>
    simp only [List.foldl_cons]
    rcases List.mem_cons.mp (ih (max a y)) with h | h
    · rcases max_choice a y with hm | hm <;> rw [hm] at h ⊢ <;> simp [h]
    · simp [h]

/-- C9: the batch summary of `main` satisfies — `total_bytes` sums the
`bytes_copied` fields (empty batch gives 0, and it satisfies the sum
recurrence); `total_time` is the maximum of the elapsed times, not their
sum (it is an upper bound of every task's time and is attained on a
nonempty batch); and `average_speed` is `total_bytes / 1048576 /
total_time` when `total_time > 0`, and 0 otherwise. -/
theorem c9_summary_aggregation :
    total_bytes [] = 0
    ∧ (∀ (r : TaskResult) (rs : List TaskResult),
        total_bytes (r :: rs) = r.bytes_copied + total_bytes rs)
    ∧ (∀ (rs : List TaskResult) (r : TaskResult), r ∈ rs →
        r.time_seconds ≤ total_time rs)
    ∧ (∀ rs : List TaskResult, rs ≠ [] →
        total_time rs ∈ rs.map TaskResult.time_seconds)
    ∧ (∀ rs : List TaskResult, 0 < total_time rs →
        average_speed rs = (total_bytes rs : ℚ) / 1048576 / total_time rs)
    ∧ (∀ rs : List TaskResult, ¬ 0 < total_time rs → average_speed rs = 0) := by
  refine ⟨rfl, ?_, ?_, ?_, ?_, ?_⟩
  · intro r rs
    simp [total_bytes]
  · intro rs r h
    cases rs with
    | nil => simp at h
    | cons r0 rs =>
      rcases List.mem_cons.mp h with rfl | h
      · exact le_foldl_max _ _
      · exact mem_le_foldl_max _ _ _ (List.mem_map_of_mem TaskResult.time_seconds h)
  · intro rs h
    cases rs with
    | nil => exact absurd rfl h
    | cons r0 rs =>
      simpa using foldl_max_mem r0.time_seconds (rs.map TaskResult.time_seconds)
  · intro rs h
    simp [average_speed, if_pos h]
  · intro rs h
    simp [average_speed, if_neg h]

theorem c9_summary_aggregation_witness :
    (⟨0, (7 : ℚ)⟩ : TaskResult).time_seconds ≤
      total_time [⟨0, 10⟩, ⟨0, 7⟩, ⟨0, 12⟩]
    ∧ total_time [⟨0, 10⟩, ⟨0, 7⟩, ⟨0, 12⟩] ∈
        ([⟨0, 10⟩, ⟨0, 7⟩, ⟨0, 12⟩] : List TaskResult).map TaskResult.time_seconds
    ∧ average_speed [⟨1048576, 10⟩, ⟨0, 7⟩, ⟨0, 12⟩] =
        ((total_bytes [⟨1048576, 10⟩, ⟨0, 7⟩, ⟨0, 12⟩] : ℚ) / 1048576 /
          total_time [⟨1048576, 10⟩, ⟨0, 7⟩, ⟨0, 12⟩]) :=
  ⟨c9_summary_aggregation.2.2.1 [⟨0, 10⟩, ⟨0, 7⟩, ⟨0, 12⟩] ⟨0, 7⟩ (by decide),
   c9_summary_aggregation.2.2.2.1 [⟨0, 10⟩, ⟨0, 7⟩, ⟨0, 12⟩] (by decide),
   c9_summary_aggregation.2.2.2.2.1 [⟨1048576, 10⟩, ⟨0, 7⟩, ⟨0, 12⟩] (by decide)⟩

/-! Equivalence of the findall scan with the positional matcher

For the two summary patterns no match can begin strictly inside another
match's consumed span: a match must begin with a character whose
lowercase form is the first letter of one of the two labels, and every
later character of a consumed span — label tail letters, whitespace, the
colon, digits and separators — lowercases to something else.  Hence the
non-overlapping `re.findall` scan finds exactly the matches at all
positions, which justifies reading "the last matching occurrence"
directly off `allMatches`. -/

theorem forall₂_toLower_mem {m lab : List Char}
    (hf : List.Forall₂ (fun c p => c.toLower = p) m lab) :
    ∀ x ∈ m, x.toLower ∈ lab := by
  induction hf with
  | nil => simp
  | cons h hf ih =>
    intro x hx
    rcases List.mem_cons.mp hx with rfl | hx
    · rw [h]; exact List.mem_cons_self _ _
    · exact List.mem_cons_of_mem _ (ih x hx)

theorem ciTake_spec (lab : List Char) :
    ∀ (cs r : List Char), ciTake lab cs = some r →
      ∃ m, cs = m ++ r ∧ List.Forall₂ (fun c p => c.toLower = p) m lab := by
  induction lab with
  | nil =>
    intro cs r h
    simp only [ciTake, Option.some.injEq] at h
    exact ⟨[], by simp [h], List.Forall₂.nil⟩
  | cons p ps ih =>
    intro cs r h
    cases cs with
    | nil => simp [ciTake] at h
    | cons c cs =>
      simp only [ciTake] at h
      split at h
      · rename_i hc
        obtain ⟨m, hm, hf⟩ := ih cs r h
        exact ⟨c :: m, by simp [hm], List.Forall₂.cons hc hf⟩
      · exact absurd h (by simp)

theorem afterLabel_spec (cs g r : List Char) (h : afterLabel cs = some (g, r)) :
    ∃ mid, cs = mid ++ (g ++ r)
      ∧ (∀ x ∈ mid, x.isWhitespace = true ∨ x = ':')
      ∧ (∀ x ∈ g, isNumSep x = true) ∧ g ≠ [] := by
  unfold afterLabel at h
  split at h
  · rename_i cs2 heq
    dsimp only at h
    split at h
    · exact absurd h (by simp)
    · rename_i hg
      simp only [Option.some.injEq, Prod.mk.injEq] at h
      obtain ⟨hg1, hr1⟩ := h
      refine ⟨cs.takeWhile Char.isWhitespace ++ ':' :: cs2.takeWhile Char.isWhitespace,
        ?_, ?_, ?_, ?_⟩
      · have e1 : cs.takeWhile Char.isWhitespace ++ cs.dropWhile Char.isWhitespace = cs :=
          List.takeWhile_append_dropWhile _ _
        have e2 : cs2.takeWhile Char.isWhitespace ++ cs2.dropWhile Char.isWhitespace = cs2 :=
          List.takeWhile_append_dropWhile _ _
        have e3 : (cs2.dropWhile Char.isWhitespace).takeWhile isNumSep ++
            (cs2.dropWhile Char.isWhitespace).dropWhile isNumSep =
            cs2.dropWhile Char.isWhitespace :=
          List.takeWhile_append_dropWhile _ _
        rw [hg1, hr1] at e3
        conv_lhs => rw [← e1, heq, ← e2, ← e3]
        simp
      · intro x hx
        rcases List.mem_append.mp hx with hx | hx
        · exact Or.inl (List.mem_takeWhile_imp hx)
        · rcases List.mem_cons.mp hx with rfl | hx
          · exact Or.inr rfl
          · exact Or.inl (List.mem_takeWhile_imp hx)
      · intro x hx
        rw [← hg1] at hx
        exact List.mem_takeWhile_imp hx
      · intro hnil
        rw [hg1, hnil] at hg
        exact hg (by simp)
  · exact absurd h (by simp)

theorem tryAlt_head (h0 : Char) (labt cs : List Char) (c : Char)
    (g r : List Char) (h : tryAlt (h0 :: labt) (c :: cs) = some (g, r)) :
    c.toLower = h0 := by
  unfold tryAlt at h
  split at h
  · rename_i rest heq
    simp only [ciTake] at heq
    split at heq
    · assumption
    · exact absurd heq (by simp)
  · exact absurd h (by simp)

theorem tryAlt_spec (h0 : Char) (labt cs g r : List Char)
    (h : tryAlt (h0 :: labt) cs = some (g, r)) :
    ∃ c pre, cs = c :: (pre ++ r) ∧ c.toLower = h0 ∧
      (∀ x ∈ pre,
        x.toLower ∈ labt ∨ x.isWhitespace = true ∨ x = ':' ∨ isNumSep x = true) := by
  unfold tryAlt at h
  split at h
  · rename_i rest heq
    obtain ⟨m, hm, hf⟩ := ciTake_spec (h0 :: labt) cs rest heq
    obtain ⟨mid, hrest, hmid, hgrp, -⟩ := afterLabel_spec rest g r h
    cases hf with
    | cons hc hft =>
      rename_i mh mtail
      refine ⟨mh, mtail ++ (mid ++ g), ?_, hc, ?_⟩
      · rw [hm, hrest]
        simp
      · intro x hx
        rcases List.mem_append.mp hx with hx | hx
        · exact Or.inl (forall₂_toLower_mem hft x hx)
        · rcases List.mem_append.mp hx with hx | hx
          · rcases hmid x hx with hw | hw
            · exact Or.inr (Or.inl hw)
            · exact Or.inr (Or.inr (Or.inl hw))
          · exact Or.inr (Or.inr (Or.inr (hgrp x hx)))
  · exact absurd h (by simp)

theorem tryMatch2_head (h1 : Char) (t1 : List Char) (h2 : Char) (t2 : List Char)
    (cs : List Char) (c : Char) (g r : List Char)
    (h : tryMatch2 (h1 :: t1) (h2 :: t2) (c :: cs) = some (g, r)) :
    c.toLower = h1 ∨ c.toLower = h2 := by
  unfold tryMatch2 at h
  split at h
  · rename_i gr heq
    obtain ⟨rfl⟩ : gr = (g, r) := by simpa using h
    exact Or.inl (tryAlt_head h1 t1 cs c g r heq)
  · exact Or.inr (tryAlt_head h2 t2 cs c g r h)

theorem tryMatch2_spec (h1 : Char) (t1 : List Char) (h2 : Char) (t2 : List Char)
    (cs g r : List Char)
    (h : tryMatch2 (h1 :: t1) (h2 :: t2) cs = some (g, r)) :
    ∃ c pre, cs = c :: (pre ++ r) ∧
      (∀ x ∈ pre,
        x.toLower ∈ t1 ∨ x.toLower ∈ t2 ∨ x.isWhitespace = true ∨ x = ':' ∨
          isNumSep x = true) := by
  unfold tryMatch2 at h
  split at h
  · rename_i gr heq
    obtain ⟨rfl⟩ : gr = (g, r) := by simpa using h
    obtain ⟨c, pre, hcs, -, hpre⟩ := tryAlt_spec h1 t1 cs g r heq
    refine ⟨c, pre, hcs, ?_⟩
    intro x hx
    rcases hpre x hx with hh | hh | hh | hh
    · exact Or.inl hh
    · exact Or.inr (Or.inr (Or.inl hh))
    · exact Or.inr (Or.inr (Or.inr (Or.inl hh)))
    · exact Or.inr (Or.inr (Or.inr (Or.inr hh)))
  · obtain ⟨c, pre, hcs, -, hpre⟩ := tryAlt_spec h2 t2 cs g r h
    refine ⟨c, pre, hcs, ?_⟩
    intro x hx
    rcases hpre x hx with hh | hh | hh | hh
    · exact Or.inr (Or.inl hh)
    · exact Or.inr (Or.inr (Or.inl hh))
    · exact Or.inr (Or.inr (Or.inr (Or.inl hh)))
    · exact Or.inr (Or.inr (Or.inr (Or.inr hh)))

theorem nonstarter_lt65 (x : Char) (hx : x.toNat < 65) (c : Char)
    (hc : 96 < c.toNat) : x.toLower ≠ c := by
  rw [toLower_of_lt65 x hx]
  exact ne_of_toNat_ne _ _ (by omega)

theorem numsep_lt65 (x : Char) (h : isNumSep x = true) : x.toNat < 65 := by
  simp [isNumSep] at h
  rcases h with (h | h) | h
  · have := digit_toNat_range x h
    omega
  · subst h; decide
  · subst h; decide

theorem hnsBytes (x : Char)
    (h : x.toLower ∈ (['y', 't', 'e', 's'] : List Char)
      ∨ x.toLower ∈ (['c', 't', 'e', 't', 's'] : List Char)
      ∨ x.isWhitespace = true ∨ x = ':' ∨ isNumSep x = true) :
    ¬(x.toLower = 'b' ∨ x.toLower = 'o') := by
  intro hc
  rcases h with h | h | h | h | h
  · rcases hc with hb | hb <;> (rw [hb] at h; exact absurd h (by decide))
  · rcases hc with hb | hb <;> (rw [hb] at h; exact absurd h (by decide))
  · have hlt := ws_toNat_lt65 x h
    rcases hc with hb | hb
    · exact nonstarter_lt65 x hlt 'b' (by decide) hb
    · exact nonstarter_lt65 x hlt 'o' (by decide) hb
  · subst h
    rcases hc with hb | hb <;> exact absurd hb (by decide)
  · have hlt := numsep_lt65 x h
    rcases hc with hb | hb
    · exact nonstarter_lt65 x hlt 'b' (by decide) hb
    · exact nonstarter_lt65 x hlt 'o' (by decide) hb

theorem hnsFiles (x : Char)
    (h : x.toLower ∈ (['i', 'l', 'e', 's'] : List Char)
      ∨ x.toLower ∈ (['i', 'c', 'h', 'i', 'e', 'r', 's'] : List Char)
      ∨ x.isWhitespace = true ∨ x = ':' ∨ isNumSep x = true) :
    ¬(x.toLower = 'f' ∨ x.toLower = 'f') := by
  intro hc
  rcases h with h | h | h | h | h
  · rcases hc with hb | hb <;> (rw [hb] at h; exact absurd h (by decide))
  · rcases hc with hb | hb <;> (rw [hb] at h; exact absurd h (by decide))
  · have hlt := ws_toNat_lt65 x h
    rcases hc with hb | hb <;> exact nonstarter_lt65 x hlt 'f' (by decide) hb
  · subst h
    rcases hc with hb | hb <;> exact absurd hb (by decide)
  · have hlt := numsep_lt65 x h
    rcases hc with hb | hb <;> exact nonstarter_lt65 x hlt 'f' (by decide) hb

theorem allMatches_drop_nonstarters (h1 : Char) (t1 : List Char) (h2 : Char)
    (t2 : List Char)
    (Hns : ∀ x : Char,
      (x.toLower ∈ t1 ∨ x.toLower ∈ t2 ∨ x.isWhitespace = true ∨ x = ':' ∨
        isNumSep x = true) → ¬(x.toLower = h1 ∨ x.toLower = h2))
    (pre rest : List Char)
    (hpre : ∀ x ∈ pre,
      x.toLower ∈ t1 ∨ x.toLower ∈ t2 ∨ x.isWhitespace = true ∨ x = ':' ∨
        isNumSep x = true) :
    allMatches (h1 :: t1) (h2 :: t2) (pre ++ rest) =
      allMatches (h1 :: t1) (h2 :: t2) rest := by
  induction pre with
  | nil => rfl
  | cons x pre ih =>
    have hx := hpre x (List.mem_cons_self x pre)
    have hnone : tryMatch2 (h1 :: t1) (h2 :: t2) (x :: (pre ++ rest)) = none := by
      cases hm : tryMatch2 (h1 :: t1) (h2 :: t2) (x :: (pre ++ rest)) with
      | none => rfl
      | some gr =>
        exact absurd (tryMatch2_head h1 t1 h2 t2 (pre ++ rest) x gr.1 gr.2
          (by rw [hm])) (Hns x hx)
    simp only [List.cons_append, List.append_eq, allMatches, hnone]
    exact ih (fun y hy => hpre y (List.mem_cons_of_mem _ hy))

theorem scanSkipAux_eq_allMatches (h1 : Char) (t1 : List Char) (h2 : Char)
    (t2 : List Char)
    (Hns : ∀ x : Char,
      (x.toLower ∈ t1 ∨ x.toLower ∈ t2 ∨ x.isWhitespace = true ∨ x = ':' ∨
        isNumSep x = true) → ¬(x.toLower = h1 ∨ x.toLower = h2)) :
    ∀ (fuel : Nat) (cs : List Char), cs.length ≤ fuel →
      scanSkipAux (h1 :: t1) (h2 :: t2) fuel cs =
        allMatches (h1 :: t1) (h2 :: t2) cs := by
  intro fuel
  induction fuel with
  | zero =>
    intro cs h
    have : cs = [] := List.eq_nil_of_length_eq_zero (Nat.le_zero.mp h)
    subst this
    rfl
  | succ n ih =>
    intro cs h
    cases cs with
    | nil => rfl
    | cons c cs =>
      cases hm : tryMatch2 (h1 :: t1) (h2 :: t2) (c :: cs) with
      | none =>
        simp only [scanSkipAux, hm, allMatches]
        exact ih cs (by simp only [List.length_cons] at h; omega)
      | some gr =>
        obtain ⟨g, r⟩ := gr
        obtain ⟨c', pre, heq, hpre⟩ := tryMatch2_spec h1 t1 h2 t2 (c :: cs) g r hm
        have hc : c' = c := (List.cons.injEq .. ▸ heq.symm).1
        have hcs : cs = pre ++ r := (List.cons.injEq .. ▸ heq.symm).2.symm
        have hr : r.length ≤ n := by
          have hlen : cs.length ≤ n := by
            simp only [List.length_cons] at h
            omega
          rw [hcs] at hlen
          simp only [List.length_append] at hlen
          omega
        simp only [scanSkipAux, hm]
        rw [ih r hr, hcs]
        have hall : allMatches (h1 :: t1) (h2 :: t2) (c :: (pre ++ r)) =
            g :: allMatches (h1 :: t1) (h2 :: t2) r := by
          have hm2 : tryMatch2 (h1 :: t1) (h2 :: t2) (c :: (pre ++ r)) = some (g, r) := by
            rw [← hcs]; exact hm
          simp only [allMatches, hm2]
          exact congrArg (g :: ·) (allMatches_drop_nonstarters h1 t1 h2 t2 Hns pre r hpre)
        exact hall.symm

theorem scanSkip_eq_allMatches (h1 : Char) (t1 : List Char) (h2 : Char)
    (t2 : List Char)
    (Hns : ∀ x : Char,
      (x.toLower ∈ t1 ∨ x.toLower ∈ t2 ∨ x.isWhitespace = true ∨ x = ':' ∨
        isNumSep x = true) → ¬(x.toLower = h1 ∨ x.toLower = h2))
    (cs : List Char) :
    scanSkip (h1 :: t1) (h2 :: t2) cs = allMatches (h1 :: t1) (h2 :: t2) cs :=
  scanSkipAux_eq_allMatches h1 t1 h2 t2 Hns cs.length cs (Nat.le_refl _)

theorem scanSkip_bytes (cs : List Char) :
    scanSkip bytesA bytesB cs = allMatches bytesA bytesB cs :=
  scanSkip_eq_allMatches 'b' ['y', 't', 'e', 's'] 'o' ['c', 't', 'e', 't', 's']
    hnsBytes cs

theorem scanSkip_files (cs : List Char) :
    scanSkip filesA filesB cs = allMatches filesA filesB cs :=
  scanSkip_eq_allMatches 'f' ['i', 'l', 'e', 's'] 'f' ['i', 'c', 'h', 'i', 'e', 'r', 's']
    hnsFiles cs

/-- C5: for every listing output in which the byte-total pattern
(`Bytes`/`Octets`, either locale) and the file-count pattern
(`Files`/`Fichiers`) each match somewhere (with at least one digit in the
last captured group), `get_stats` returns exactly the numeric values of
the last byte-total occurrence and the last file-count occurrence, with
every non-digit (in particular thousands separators) stripped before the
conversion.  Occurrences are read off `allMatches`, the positional
matcher, which `scanSkip` (the embedded `re.findall`) provably equals. -/
theorem c5_get_stats_last_occurrence (out sg fg : List Char)
    (hb : (allMatches bytesA bytesB out).getLast? = some sg)
    (hf : (allMatches filesA filesB out).getLast? = some fg)
    (hbd : sg.filter Char.isDigit ≠ [])
    (hfd : fg.filter Char.isDigit ≠ []) :
    get_stats out =
      some ⟨natOfDigits (sg.filter Char.isDigit),
            natOfDigits (fg.filter Char.isDigit)⟩ := by
  unfold get_stats
  dsimp only
  rw [scanSkip_bytes, scanSkip_files, hb, hf]
  unfold cleanInt
  dsimp only
  rw [if_neg (by simpa using hbd), if_neg (by simpa using hfd)]

theorem c5_get_stats_last_occurrence_witness :
    get_stats ("junk\n Files : 2\n Bytes : 50\nmid\n Fichiers : 34\n Octets : 12,345,678\nx").data =
      some ⟨12345678, 34⟩ := by
  rw [c5_get_stats_last_occurrence
    ("junk\n Files : 2\n Bytes : 50\nmid\n Fichiers : 34\n Octets : 12,345,678\nx").data
    "12,345,678".data "34".data (by decide) (by decide) (by decide) (by decide)]
  decide
